import Mathlib

set_option linter.unusedVariables false

namespace SocialMediaBackend

/-! Shallow embedding of the scheduled-post subsystem of the repository:
`src/src/utils/jobQueue.js` (the scheduler facade with its durable/Bull branch
and its in-memory fallback branch) and `src/src/controllers/scheduled.js`
(the HTTP boundary). Times are modelled as `Int` milliseconds since the epoch,
as produced by JS `Date` arithmetic. -/

/-- Payload of a post to create later. The controller passes an object holding
a `content` field (controllers/scheduled.js lines 52-55); `jobQueue.js` treats
it opaquely. -/
structure PostData where
  content : String
deriving DecidableEq, Repr

/-- One entry of the fallback backend's in-memory job map: the `jobData`
object built in `schedulePost` (jobQueue.js lines 133-140). `error` is absent
(`none`) until the fired callback records a failure (line 157). -/
structure JobData where
  id : String
  postData : PostData
  userId : Nat
  scheduledTime : Int
  status : String
  createdAt : Int
  error : Option String
deriving DecidableEq, Repr

/-- A `setTimeout` armed by the fallback branch of `schedulePost`
(jobQueue.js lines 145-160): the callback closes over `jobId`, `postData` and
`userId`; `delay` is its duration. Nothing in the code ever clears an armed
timer (there is no `clearTimeout`). -/
structure Timer where
  jobId : String
  postData : PostData
  userId : Nat
  delay : Int
deriving DecidableEq, Repr

/-- One call handed to the durable backend by `scheduledPostsQueue.add`
(jobQueue.js lines 108-115): the job name, its data and its options. -/
structure AddedJob where
  name : String
  postData : PostData
  userId : Nat
  delay : Int
  jobId : String
deriving DecidableEq, Repr

/-- A job as returned by Bull's `getJobs(['delayed','waiting'])`; only the
fields read by `getScheduledPosts` (jobQueue.js lines 241-249) are modelled. -/
structure BullJob where
  id : String
  dataPostData : PostData
  dataUserId : Nat
  optsDelay : Int
  processedOn : Int
  timestamp : Int
deriving DecidableEq, Repr

/-- The module-level mutable state of jobQueue.js (`isRedisAvailable`,
`inMemoryJobs`, `jobIdCounter`), together with the armed timers, the log of
jobs handed to the durable backend (`redisAdded`), and the observable trace of
`Post.createPost` invocations made by fired fallback timers (`postLog`). -/
structure QueueState where
  isRedisAvailable : Bool
  inMemoryJobs : List JobData
  jobIdCounter : Nat
  timers : List Timer
  redisAdded : List AddedJob
  postLog : List (PostData × Nat)
deriving DecidableEq, Repr

/-- Module state right after a failed durable-backend probe: fallback mode,
empty map, counter 1 (jobQueue.js lines 14-15), no timers armed, nothing
enqueued durably, no posts created. -/
def initState : QueueState :=
  { isRedisAvailable := false, inMemoryJobs := [], jobIdCounter := 1,
    timers := [], redisAdded := [], postLog := [] }

/-- JS `Map.set` on the job map keyed by `id`: overwrite an entry with the
same key in place, otherwise append (JS `Map` preserves insertion order). -/
def mapSet (m : List JobData) (j : JobData) : List JobData :=
  if m.any (fun k => k.id = j.id) then
    m.map (fun k => if k.id = j.id then j else k)
  else
    m ++ [j]

/-- The object `schedulePost` resolves with (jobQueue.js lines 124-129 and
169-174). -/
structure ScheduleResult where
  jobId : String
  scheduledTime : Int
  status : String
  message : String
deriving DecidableEq, Repr

/-- The object `cancelScheduledPost` resolves with (jobQueue.js lines 202-206
and 217-221). -/
structure CancelResult where
  jobId : String
  status : String
  message : String
deriving DecidableEq, Repr

/-- `schedulePost(postData, userId, scheduledTime)` (jobQueue.js lines
98-181), with `now` standing for `new Date()`. A thrown error is returned as
`Except.error` of its message, pairing the (unchanged) state. The fallback
branch stores the job map entry, bumps the counter, and arms a timer. -/
def schedulePost (postData : PostData) (userId : Nat) (scheduledTime : Int)
    (now : Int) (s : QueueState) : Except String ScheduleResult × QueueState :=
  let delay := scheduledTime - now
  if delay ≤ 0 then
    (Except.error "Scheduled time must be in the future", s)
  else if s.isRedisAvailable then
    let jobId := "scheduled-post-" ++ Nat.repr userId ++ "-" ++ Int.repr now
    (Except.ok { jobId := jobId, scheduledTime := scheduledTime,
                 status := "scheduled", message := "Post scheduled successfully" },
     { s with redisAdded := s.redisAdded ++
        [{ name := "createPost", postData := postData, userId := userId,
           delay := delay, jobId := jobId }] })
  else
    let jobId := "memory-job-" ++ Nat.repr s.jobIdCounter
    let jobData : JobData :=
      { id := jobId, postData := postData, userId := userId,
        scheduledTime := scheduledTime, status := "scheduled",
        createdAt := now, error := none }
    (Except.ok { jobId := jobId, scheduledTime := scheduledTime,
                 status := "scheduled",
                 message := "Post scheduled successfully (in-memory)" },
     { s with inMemoryJobs := mapSet s.inMemoryJobs jobData,
              jobIdCounter := s.jobIdCounter + 1,
              timers := s.timers ++
                [{ jobId := jobId, postData := postData, userId := userId,
                   delay := delay }] })

/-- Outcome of the `Post.createPost` call made by a fired timer callback. -/
inductive PostOutcome where
  | success
  | failure (msg : String)
deriving DecidableEq, Repr

/-- The `setTimeout` callback of the fallback branch firing (jobQueue.js lines
145-160). Its first action is `await Post.createPost(...)` on the
closure-captured `postData` and `userId` — there is no presence re-check
against the map before that call — recorded on `postLog`. On success the map
entry is deleted; on failure the entry, if still present, gets
`status = 'failed'` and `error` set to the thrown message. The single-shot
timer is consumed. -/
def fireTimer (s : QueueState) (t : Timer) (o : PostOutcome) : QueueState :=
  let s' := { s with timers := s.timers.erase t,
                     postLog := s.postLog ++ [(t.postData, t.userId)] }
  match o with
  | PostOutcome.success =>
      { s' with inMemoryJobs := s'.inMemoryJobs.filter (fun j => j.id ≠ t.jobId) }
  | PostOutcome.failure msg =>
      { s' with inMemoryJobs := s'.inMemoryJobs.map (fun j =>
          if j.id = t.jobId then { j with status := "failed", error := some msg }
          else j) }

/-- `cancelScheduledPost(jobId)` (jobQueue.js lines 188-228). The durable
branch is taken when the backend is available and the identifier is not a
fallback one; `getJob` is modelled over the still-enqueued `redisAdded` jobs.
The fallback branch throws when the map has no entry and otherwise deletes it.
Neither branch touches armed timers. -/
def cancelScheduledPost (jobId : String) (s : QueueState) :
    Except String CancelResult × QueueState :=
  if s.isRedisAvailable && !(jobId.startsWith "memory-job-") then
    match s.redisAdded.find? (fun j => j.jobId = jobId) with
    | none => (Except.error "Scheduled post not found", s)
    | some _ =>
        (Except.ok { jobId := jobId, status := "cancelled",
                     message := "Scheduled post cancelled successfully" },
         { s with redisAdded := s.redisAdded.filter (fun j => j.jobId ≠ jobId) })
  else
    if s.inMemoryJobs.any (fun j => j.id = jobId) then
      (Except.ok { jobId := jobId, status := "cancelled",
                   message := "Scheduled post cancelled successfully (in-memory)" },
       { s with inMemoryJobs := s.inMemoryJobs.filter (fun j => j.id ≠ jobId) })
    else
      (Except.error "Scheduled post not found", s)

/-- The per-job object returned by `getScheduledPosts` on either branch
(jobQueue.js lines 243-249 and 256-262). -/
structure JobView where
  jobId : String
  postData : PostData
  scheduledTime : Int
  status : String
  createdAt : Int
deriving DecidableEq, Repr

/-- The object built for one Bull job in the durable branch of
`getScheduledPosts` (jobQueue.js lines 243-249). -/
def bullView (j : BullJob) : JobView :=
  { jobId := j.id, postData := j.dataPostData,
    scheduledTime := j.processedOn + j.optsDelay,
    status := if j.optsDelay > 0 then "scheduled" else "processing",
    createdAt := j.timestamp }

/-- The object built for one map entry in the fallback branch of
`getScheduledPosts` (jobQueue.js lines 256-262). -/
def memView (j : JobData) : JobView :=
  { jobId := j.id, postData := j.postData, scheduledTime := j.scheduledTime,
    status := j.status, createdAt := j.createdAt }

/-- `getScheduledPosts(userId)` (jobQueue.js lines 235-271). `bull` is
whatever `getJobs(['delayed','waiting'])` returns from the external durable
backend; the fallback branch reads the in-memory map. -/
def getScheduledPosts (userId : Nat) (bull : List BullJob) (s : QueueState) :
    List JobView :=
  if s.isRedisAvailable then
    (bull.filter (fun j => j.dataUserId = userId)).map bullView
  else
    (s.inMemoryJobs.filter (fun j => j.userId = userId)).map memView

/-- A JSON scalar appearing in the stats object. -/
inductive JsonVal where
  | num (n : Nat)
  | str (s : String)
deriving DecidableEq, Repr

/-- Lengths of the five Bull state lists read by the durable branch of
`getQueueStats` (jobQueue.js lines 281-285); external backend data. -/
structure RedisCounts where
  waiting : Nat
  active : Nat
  completed : Nat
  failed : Nat
  delayed : Nat
deriving DecidableEq, Repr

/-- `getQueueStats()` (jobQueue.js lines 277-317) as the returned JS object's
ordered key/value list. The fallback branch counts map entries with status
`scheduled` and `failed` and reports them under `delayed` and `failed`. -/
def getQueueStats (rc : RedisCounts) (s : QueueState) : List (String × JsonVal) :=
  if s.isRedisAvailable then
    [("waiting", JsonVal.num rc.waiting), ("active", JsonVal.num rc.active),
     ("completed", JsonVal.num rc.completed), ("failed", JsonVal.num rc.failed),
     ("delayed", JsonVal.num rc.delayed),
     ("total", JsonVal.num (rc.waiting + rc.active + rc.completed + rc.failed +
        rc.delayed)),
     ("type", JsonVal.str "redis")]
  else
    let jobs := s.inMemoryJobs
    let scheduled := (jobs.filter (fun j => j.status = "scheduled")).length
    let failed := (jobs.filter (fun j => j.status = "failed")).length
    [("waiting", JsonVal.num 0), ("active", JsonVal.num 0),
     ("completed", JsonVal.num 0), ("failed", JsonVal.num failed),
     ("delayed", JsonVal.num scheduled), ("total", JsonVal.num jobs.length),
     ("type", JsonVal.str "in-memory")]

/-- Look a key up in a JS-object-as-list. -/
def statField (stats : List (String × JsonVal)) (k : String) : Option JsonVal :=
  (stats.find? (fun p => p.1 = k)).map (fun p => p.2)

/-- HTTP status code plus the `error` field of the JSON body (`none` on a
success response). -/
abbrev HttpReply := Nat × Option String

/-- `scheduleNewPost` (controllers/scheduled.js lines 14-78). `contentValid`
abstracts the external Joi `createPostSchema` validation. `scheduledTime` is
the request-body timestamp in milliseconds, `none` when absent; the JS
`!scheduledTime` truthiness check also fires on the number 0. -/
def scheduleNewPost (contentValid : Bool) (scheduledTime : Option Int)
    (userId : Nat) (content : String) (now : Int) (s : QueueState) :
    HttpReply × QueueState :=
  if contentValid = false then ((400, some "Validation failed"), s)
  else
    match scheduledTime with
    | none => ((400, some "Scheduled time is required"), s)
    | some t =>
      if t = 0 then ((400, some "Scheduled time is required"), s)
      else if t ≤ now then
        ((400, some "Scheduled time must be in the future"), s)
      else if now + 365 * 24 * 60 * 60 * 1000 < t then
        ((400, some "Cannot schedule posts more than 1 year in advance"), s)
      else
        match schedulePost { content := content } userId t now s with
        | (Except.ok _, s') => ((201, none), s')
        | (Except.error msg, _) => ((500, some msg), s)

/-- `cancelScheduledPostById` (controllers/scheduled.js lines 109-146): the
endpoint first lists the caller's own jobs and rejects with 404 when the
identifier is not among them, then delegates to `cancelScheduledPost`. The JS
`!jobId` check is truthy-false exactly for the empty path segment. -/
def cancelScheduledPostById (jobId : String) (userId : Nat)
    (bull : List BullJob) (s : QueueState) : HttpReply × QueueState :=
  if jobId = "" then ((400, some "Job ID is required"), s)
  else
    match (getScheduledPosts userId bull s).find? (fun job => job.jobId = jobId) with
    | none => ((404, some "Scheduled post not found or does not belong to you"), s)
    | some _ =>
      match cancelScheduledPost jobId s with
      | (Except.ok _, s') => ((200, none), s')
      | (Except.error msg, _) => ((500, some msg), s)

/-- One event of the scheduler's event loop: a successful `schedulePost`, a
successful `cancelScheduledPost`, or an armed timer firing with either
outcome of `Post.createPost`. Failed calls leave the state unchanged, so they
need no step. -/
inductive Step : QueueState → QueueState → Prop where
  | schedule (pd : PostData) (uid : Nat) (t now : Int) (r : ScheduleResult)
      (s s' : QueueState) (h : schedulePost pd uid t now s = (Except.ok r, s')) :
      Step s s'
  | cancel (jobId : String) (r : CancelResult) (s s' : QueueState)
      (h : cancelScheduledPost jobId s = (Except.ok r, s')) : Step s s'
  | fire (t : Timer) (o : PostOutcome) (s : QueueState) (h : t ∈ s.timers) :
      Step s (fireTimer s t o)

/-- States reachable from the post-probe fallback initial state. -/
inductive Reachable : QueueState → Prop where
  | init : Reachable initState
  | step {s s' : QueueState} : Reachable s → Step s s' → Reachable s'

/-- Decimal value of a digit string, the inverse of `Nat.toDigits 10`. -/
def digitsVal (l : List Char) : Nat :=
  l.foldl (fun a c => a * 10 + (c.toNat - 48)) 0

/-- A concrete post payload used by concrete evaluations below. -/
def examplePost : PostData := { content := "hello" }

/-- Zero Bull counts, for evaluating the fallback branch of the stats. -/
def rc0 : RedisCounts :=
  { waiting := 0, active := 0, completed := 0, failed := 0, delayed := 0 }

/-- The map entry created by `schedulePost examplePost 1 1000 0 initState`. -/
def exJob : JobData :=
  { id := "memory-job-1", postData := examplePost, userId := 1,
    scheduledTime := 1000, status := "scheduled", createdAt := 0, error := none }

/-- The timer armed by `schedulePost examplePost 1 1000 0 initState`. -/
def exTimer : Timer :=
  { jobId := "memory-job-1", postData := examplePost, userId := 1, delay := 1000 }

/-- The state after `schedulePost examplePost 1 1000 0 initState`. -/
def exState1 : QueueState :=
  { isRedisAvailable := false, inMemoryJobs := [exJob], jobIdCounter := 2,
    timers := [exTimer], redisAdded := [], postLog := [] }

/-- The map entry created by a second schedule call, from `exState1`. -/
def exJob2 : JobData :=
  { id := "memory-job-2", postData := examplePost, userId := 1,
    scheduledTime := 2000, status := "scheduled", createdAt := 0, error := none }

/-- The timer armed by that second schedule call. -/
def exTimer2 : Timer :=
  { jobId := "memory-job-2", postData := examplePost, userId := 1, delay := 2000 }

/-- The state after `schedulePost examplePost 1 2000 0 exState1`. -/
def exState2 : QueueState :=
  { isRedisAvailable := false, inMemoryJobs := [exJob, exJob2], jobIdCounter := 3,
    timers := [exTimer, exTimer2], redisAdded := [], postLog := [] }

/-- The state after `cancelScheduledPost "memory-job-1" exState1`: the map
entry is gone, the timer is still armed. -/
def exState1c : QueueState :=
  { isRedisAvailable := false, inMemoryJobs := [], jobIdCounter := 2,
    timers := [exTimer], redisAdded := [], postLog := [] }

/-- One job enqueued on the durable backend by a redis-mode schedule call. -/
def exRedisJob : AddedJob :=
  { name := "createPost", postData := examplePost, userId := 1,
    delay := 1000, jobId := "scheduled-post-1-0" }

/-- A redis-mode state holding one durably enqueued job. -/
def exStateR : QueueState :=
  { isRedisAvailable := true, inMemoryJobs := [], jobIdCounter := 1,
    timers := [], redisAdded := [exRedisJob], postLog := [] }

/-- The Bull view of `exRedisJob`, as `getJobs(['delayed','waiting'])` would
return it. -/
def exBullJob : BullJob :=
  { id := "scheduled-post-1-0", dataPostData := examplePost, dataUserId := 1,
    optsDelay := 1000, processedOn := 0, timestamp := 0 }

/-! Helper lemmas. `Nat.repr` is injective: `digitsVal` recovers the number
from its decimal digit string. -/

theorem toDigitsCore_shift (fuel : Nat) :
    ∀ (n : Nat) (ds : List Char),
      Nat.toDigitsCore 10 fuel n ds = Nat.toDigitsCore 10 fuel n [] ++ ds := by
  induction fuel with
  | zero => intro n ds; simp [Nat.toDigitsCore]
  | succ f ih =>
    intro n ds
    simp only [Nat.toDigitsCore]
    by_cases h : n / 10 = 0
    · simp [h]
    · rw [if_neg h, if_neg h, ih (n / 10) (Nat.digitChar (n % 10) :: ds),
          ih (n / 10) [Nat.digitChar (n % 10)], List.append_assoc,
          List.singleton_append]

theorem digitChar_toNat_of_lt (d : Nat) (h : d < 10) :
    (Nat.digitChar d).toNat = 48 + d := by
  interval_cases d <;> decide

theorem digitsVal_append (l : List Char) (c : Char) :
    digitsVal (l ++ [c]) = digitsVal l * 10 + (c.toNat - 48) := by
  simp [digitsVal, List.foldl_append]

theorem digitsVal_toDigitsCore (fuel : Nat) :
    ∀ n : Nat, n < 10 ^ fuel →
      digitsVal (Nat.toDigitsCore 10 fuel n []) = n := by
  induction fuel with
  | zero =>
    intro n hn
    simp only [pow_zero, Nat.lt_one_iff] at hn
    subst hn
    rfl
  | succ f ih =>
    intro n hn
    have h10 : n % 10 < 10 := Nat.mod_lt _ (by norm_num)
    simp only [Nat.toDigitsCore]
    by_cases h : n / 10 = 0
    · rw [if_pos h]
      have hv : digitsVal [Nat.digitChar (n % 10)] = n % 10 := by
        simp [digitsVal, digitChar_toNat_of_lt _ h10]
      rw [hv]
      omega
    · have hdiv : n / 10 < 10 ^ f := by
        refine (Nat.div_lt_iff_lt_mul (by norm_num)).mpr ?_
        rw [← pow_succ]
        exact hn
      rw [if_neg h, toDigitsCore_shift, digitsVal_append, ih (n / 10) hdiv,
          digitChar_toNat_of_lt _ h10]
      omega

theorem natRepr_inj {m n : Nat} (h : Nat.repr m = Nat.repr n) : m = n := by
  have hd : Nat.toDigits 10 m = Nat.toDigits 10 n := by
    have h2 := congrArg String.data h
    simpa [Nat.repr, List.asString] using h2
  have hm : digitsVal (Nat.toDigits 10 m) = m :=
    digitsVal_toDigitsCore (m + 1) m
      (Nat.lt_trans (Nat.lt_succ_self m) (Nat.lt_pow_self (by norm_num) (m + 1)))
  have hn : digitsVal (Nat.toDigits 10 n) = n :=
    digitsVal_toDigitsCore (n + 1) n
      (Nat.lt_trans (Nat.lt_succ_self n) (Nat.lt_pow_self (by norm_num) (n + 1)))
  rw [← hm, ← hn, hd]

theorem memoryJobId_inj {a b : Nat}
    (h : "memory-job-" ++ Nat.repr a = "memory-job-" ++ Nat.repr b) : a = b := by
  apply natRepr_inj
  have hd := congrArg String.data h
  simp only [String.data_append] at hd
  exact String.ext (List.append_cancel_left hd)

theorem mem_mapSet {m : List JobData} {jd j : JobData} (h : j ∈ mapSet m jd) :
    j ∈ m ∨ j = jd := by
  unfold mapSet at h
  by_cases hc : m.any (fun k => k.id = jd.id) = true
  · rw [if_pos hc] at h
    obtain ⟨k, hk, hkj⟩ := List.mem_map.mp h
    by_cases hid : k.id = jd.id
    · right
      rw [← hkj, if_pos hid]
    · left
      rw [← hkj, if_neg hid]
      exact hk
  · rw [if_neg hc] at h
    rcases List.mem_append.mp h with h | h
    · exact Or.inl h
    · right
      simpa using h

theorem step_effects {s s' : QueueState} (h : Step s s') :
    s'.isRedisAvailable = s.isRedisAvailable ∧
    s.jobIdCounter ≤ s'.jobIdCounter ∧
    ((∀ j ∈ s.inMemoryJobs, j.status = "scheduled" ∨ j.status = "failed") →
      ∀ j ∈ s'.inMemoryJobs, j.status = "scheduled" ∨ j.status = "failed") := by
  cases h with
  | schedule pd uid t now r s s' h =>
    simp only [schedulePost] at h
    by_cases h1 : t - now ≤ 0
    · simp [h1] at h
    · rw [if_neg h1] at h
      by_cases h2 : s.isRedisAvailable = true
      · simp only [h2, if_true] at h
        simp only [Prod.mk.injEq] at h
        obtain ⟨-, rfl⟩ := h
        refine ⟨h2.symm, le_refl _, fun hinv j hj => hinv j hj⟩
      · have h2' : s.isRedisAvailable = false := by simpa using h2
        simp only [h2', if_false, Bool.false_eq_true] at h
        simp only [Prod.mk.injEq] at h
        obtain ⟨-, rfl⟩ := h
        refine ⟨h2'.symm, Nat.le_succ _, fun hinv j hj => ?_⟩
        rcases mem_mapSet hj with hj | rfl
        · exact hinv j hj
        · exact Or.inl rfl
  | cancel jobId r s s' h =>
    simp only [cancelScheduledPost] at h
    by_cases hb : (s.isRedisAvailable && !(jobId.startsWith "memory-job-")) = true
    · rw [if_pos hb] at h
      cases hf : s.redisAdded.find? (fun j => j.jobId = jobId) with
      | none =>
        rw [hf] at h
        simp at h
      | some v =>
        rw [hf] at h
        simp only [Prod.mk.injEq] at h
        obtain ⟨-, rfl⟩ := h
        exact ⟨rfl, le_refl _, fun hinv j hj => hinv j hj⟩
    · rw [if_neg hb] at h
      by_cases ha : s.inMemoryJobs.any (fun j => j.id = jobId) = true
      · rw [if_pos ha] at h
        simp only [Prod.mk.injEq] at h
        obtain ⟨-, rfl⟩ := h
        refine ⟨rfl, le_refl _, fun hinv j hj => ?_⟩
        exact hinv j (List.mem_of_mem_filter hj)
      · rw [if_neg ha] at h
        simp at h
  | fire t o s ht =>
    cases o with
    | success =>
      refine ⟨rfl, le_refl _, fun hinv j hj => ?_⟩
      simp only [fireTimer] at hj
      exact hinv j (List.mem_of_mem_filter hj)
    | failure msg =>
      refine ⟨rfl, le_refl _, fun hinv j hj => ?_⟩
      simp only [fireTimer] at hj
      obtain ⟨k, hk, hkj⟩ := List.mem_map.mp hj
      by_cases hid : k.id = t.jobId
      · rw [← hkj, if_pos hid]
        exact Or.inr rfl
      · rw [← hkj, if_neg hid]
        exact hinv k hk

theorem reachable_effects {s : QueueState} (h : Reachable s) :
    s.isRedisAvailable = false ∧
    (∀ j ∈ s.inMemoryJobs, j.status = "scheduled" ∨ j.status = "failed") := by
  induction h with
  | init => exact ⟨rfl, by simp [initState]⟩
  | step hr hs ih =>
    obtain ⟨hflag, hcnt, hinv⟩ := step_effects hs
    exact ⟨by rw [hflag, ih.1], hinv ih.2⟩

theorem steps_counter_le {s s' : QueueState}
    (h : Relation.ReflTransGen Step s s') :
    s.jobIdCounter ≤ s'.jobIdCounter := by
  induction h with
  | refl => exact le_refl _
  | tail hab hbc ih => exact le_trans ih (step_effects hbc).2.1

theorem length_filter_add_length_filter {α : Type} (l : List α) (p q : α → Bool)
    (hpq : ∀ x ∈ l, p x = true ∨ q x = true)
    (hne : ∀ x ∈ l, ¬(p x = true ∧ q x = true)) :
    (l.filter p).length + (l.filter q).length = l.length := by
  induction l with
  | nil => simp
  | cons a l ih =>
    have ha := hpq a (List.mem_cons_self a l)
    have hna := hne a (List.mem_cons_self a l)
    have ihl := ih (fun x hx => hpq x (List.mem_cons_of_mem a hx))
      (fun x hx => hne x (List.mem_cons_of_mem a hx))
    rcases ha with ha | ha
    · have hqa : q a = false := by
        cases hq : q a with
        | false => rfl
        | true => exact absurd ⟨ha, hq⟩ hna
      simp [List.filter_cons, ha, hqa]
      omega
    · have hpa : p a = false := by
        cases hp : p a with
        | false => rfl
        | true => exact absurd ⟨hp, ha⟩ hna
      simp [List.filter_cons, ha, hpa]
      omega

theorem schedulePost_ok_fallback {pd : PostData} {uid : Nat} {t now : Int}
    {r : ScheduleResult} {s s' : QueueState}
    (hflag : s.isRedisAvailable = false)
    (h : schedulePost pd uid t now s = (Except.ok r, s')) :
    r.jobId = "memory-job-" ++ Nat.repr s.jobIdCounter ∧
    s'.jobIdCounter = s.jobIdCounter + 1 := by
  simp only [schedulePost] at h
  by_cases h1 : t - now ≤ 0
  · rw [if_pos h1] at h
    simp at h
  · rw [if_neg h1, hflag] at h
    simp only [Bool.false_eq_true, if_false] at h
    simp only [Prod.mk.injEq, Except.ok.injEq] at h
    obtain ⟨rfl, rfl⟩ := h
    exact ⟨rfl, rfl⟩

/-- C1 (claimed: a job cancelled while still scheduled never reaches
`Post.createPost` and vanishes from `listForOwner`): scheduling then
cancelling does remove the job from the `listForOwner` view, but
`cancelScheduledPost` never clears the armed timeout and the fired callback
calls `Post.createPost` on its closure data without first re-checking the
map, so the cancelled job's post is still created at due time. -/
theorem c1_cancelled_job_still_invokes_createPost :
    schedulePost examplePost 1 1000 0 initState =
      (Except.ok { jobId := "memory-job-1", scheduledTime := 1000,
                   status := "scheduled",
                   message := "Post scheduled successfully (in-memory)" },
       exState1) ∧
    (cancelScheduledPost "memory-job-1" exState1).1 =
      Except.ok { jobId := "memory-job-1", status := "cancelled",
                  message := "Scheduled post cancelled successfully (in-memory)" } ∧
    getScheduledPosts 1 [] (cancelScheduledPost "memory-job-1" exState1).2 = [] ∧
    (cancelScheduledPost "memory-job-1" exState1).2.timers = [exTimer] ∧
    (fireTimer (cancelScheduledPost "memory-job-1" exState1).2 exTimer
        PostOutcome.success).postLog = [(examplePost, 1)] := by
  exact ⟨rfl, rfl, rfl, rfl, rfl⟩

/-- C2: for every scheduledTime at or before `now`, `schedulePost` rejects
with the InvalidSchedule message and returns the state unchanged (no job in
the in-memory map, nothing enqueued durably), and the `scheduleNewPost`
endpoint answers 400 with an InvalidSchedule-class message, likewise leaving
the state unchanged. -/
theorem c2_past_schedule_rejected (pd : PostData) (uid : Nat) (t now : Int)
    (content : String) (s : QueueState) (h : t ≤ now) :
    (schedulePost pd uid t now s).1 =
      Except.error "Scheduled time must be in the future" ∧
    (schedulePost pd uid t now s).2 = s ∧
    (scheduleNewPost true (some t) uid content now s).2 = s ∧
    (scheduleNewPost true (some t) uid content now s).1.1 = 400 ∧
    ((scheduleNewPost true (some t) uid content now s).1.2 =
        some "Scheduled time must be in the future" ∨
      (scheduleNewPost true (some t) uid content now s).1.2 =
        some "Scheduled time is required") := by
  have hd : t - now ≤ 0 := by omega
  have hs : schedulePost pd uid t now s =
      (Except.error "Scheduled time must be in the future", s) := by
    simp only [schedulePost]
    rw [if_pos hd]
  by_cases ht0 : t = 0
  · have hc : scheduleNewPost true (some t) uid content now s =
        ((400, some "Scheduled time is required"), s) := by
      simp [scheduleNewPost, ht0]
    rw [hs, hc]
    exact ⟨rfl, rfl, rfl, rfl, Or.inr rfl⟩
  · have hc : scheduleNewPost true (some t) uid content now s =
        ((400, some "Scheduled time must be in the future"), s) := by
      simp [scheduleNewPost, ht0, h]
    rw [hs, hc]
    exact ⟨rfl, rfl, rfl, rfl, Or.inl rfl⟩

theorem c2_witness :
    (5 : Int) ≤ 10 ∧
    (schedulePost examplePost 1 5 10 initState).1 =
      Except.error "Scheduled time must be in the future" ∧
    (scheduleNewPost true (some 5) 1 "x" 10 initState).1.1 = 400 :=
  ⟨by norm_num,
   (c2_past_schedule_rejected examplePost 1 5 10 "x" initState (by norm_num)).1,
   (c2_past_schedule_rejected examplePost 1 5 10 "x" initState
      (by norm_num)).2.2.2.1⟩

/-- C3: for every scheduledTime strictly more than one year past `now` (with
a non-negative clock), the endpoint rejects with the InvalidSchedule horizon
message and no job is created in either backend (state unchanged). -/
theorem c3_beyond_horizon_rejected (uid : Nat) (content : String) (t now : Int)
    (s : QueueState) (hnow : 0 ≤ now)
    (h : now + 365 * 24 * 60 * 60 * 1000 < t) :
    scheduleNewPost true (some t) uid content now s =
      ((400, some "Cannot schedule posts more than 1 year in advance"), s) := by
  have ht0 : ¬ t = 0 := by omega
  have htle : ¬ t ≤ now := by omega
  have hlt : now + 31536000000 < t := by omega
  simp [scheduleNewPost, ht0, htle, hlt]

theorem c3_witness :
    (0 : Int) ≤ 0 ∧ (0 : Int) + 365 * 24 * 60 * 60 * 1000 < 31536000001 ∧
    scheduleNewPost true (some 31536000001) 1 "x" 0 initState =
      ((400, some "Cannot schedule posts more than 1 year in advance"),
       initState) :=
  ⟨le_refl 0, by norm_num,
   c3_beyond_horizon_rejected 1 "x" 31536000001 0 initState (le_refl 0)
     (by norm_num)⟩

/-- C4: on the fallback backend's due-time execution path, a successful
`Post.createPost` call deletes the job's map entry, while a failing call
retains a (still-present) entry with `status = 'failed'` and `error` set to
the thrown message, so a later `getScheduledPosts` call for the owner
surfaces it. -/
theorem c4_fire_success_deletes_failure_retains (s : QueueState) (t : Timer)
    (msg : String) (bull : List BullJob)
    (hflag : s.isRedisAvailable = false) :
    (∀ j ∈ (fireTimer s t PostOutcome.success).inMemoryJobs, j.id ≠ t.jobId) ∧
    (∀ j ∈ s.inMemoryJobs, j.id = t.jobId →
      ({ j with status := "failed", error := some msg } : JobData) ∈
          (fireTimer s t (PostOutcome.failure msg)).inMemoryJobs ∧
        memView { j with status := "failed", error := some msg } ∈
          getScheduledPosts j.userId bull
            (fireTimer s t (PostOutcome.failure msg))) := by
  constructor
  · intro j hj
    simp only [fireTimer] at hj
    have := List.of_mem_filter hj
    simpa using this
  · intro j hj hid
    have hmem : ({ j with status := "failed", error := some msg } : JobData) ∈
        (fireTimer s t (PostOutcome.failure msg)).inMemoryJobs := by
      simp only [fireTimer]
      have hmap := List.mem_map_of_mem
        (fun k => if k.id = t.jobId then
            { k with status := "failed", error := some msg } else k) hj
      simpa [hid] using hmap
    refine ⟨hmem, ?_⟩
    have hflag' :
        (fireTimer s t (PostOutcome.failure msg)).isRedisAvailable = false := by
      simp only [fireTimer]
      exact hflag
    simp only [getScheduledPosts, hflag', Bool.false_eq_true, if_false]
    refine List.mem_map_of_mem memView (List.mem_filter.mpr ⟨hmem, ?_⟩)
    simp

theorem c4_witness :
    ({ exJob with status := "failed", error := some "boom" } : JobData) ∈
      (fireTimer exState1 exTimer (PostOutcome.failure "boom")).inMemoryJobs ∧
    memView { exJob with status := "failed", error := some "boom" } ∈
      getScheduledPosts 1 []
        (fireTimer exState1 exTimer (PostOutcome.failure "boom")) :=
  (c4_fire_success_deletes_failure_retains exState1 exTimer "boom" [] rfl).2
    exJob (by decide) rfl

theorem scheduledPostId_not_memory :
    ("scheduled-post-1-0".startsWith "memory-job-") = false := by
  rw [String.startsWith]
  show Substring.beq _ _ = false
  rw [Substring.beq]
  rw [String.substrEq.eq_def]
  rw [String.substrEq.loop.eq_def]
  decide

/-- C5: `cancelScheduledPost` errors with the NotFound message exactly when
the job identifier is unknown to the active backend — on the fallback
backend, when the in-memory map has no such entry (never scheduled, already
fired successfully, or already cancelled); on the durable backend, when no
enqueued job carries the identifier — otherwise succeeding with status
'cancelled'; at the public endpoint a job that is absent or not owned by the
caller yields 404, and an owned job known to the backend cancels with 200. -/
theorem c5_cancel_notfound_iff (jobId : String) (uid : Nat)
    (bull : List BullJob) (s : QueueState) :
    (s.isRedisAvailable = false →
      ((cancelScheduledPost jobId s).1 =
          Except.error "Scheduled post not found" ↔
        ¬ ∃ j ∈ s.inMemoryJobs, j.id = jobId) ∧
      ((∃ j ∈ s.inMemoryJobs, j.id = jobId) →
        cancelScheduledPost jobId s =
          (Except.ok { jobId := jobId, status := "cancelled",
                       message := "Scheduled post cancelled successfully (in-memory)" },
           { s with inMemoryJobs :=
              s.inMemoryJobs.filter (fun j => j.id ≠ jobId) })) ∧
      (jobId ≠ "" →
        ¬ (∃ j ∈ s.inMemoryJobs, j.id = jobId ∧ j.userId = uid) →
        cancelScheduledPostById jobId uid bull s =
          ((404, some "Scheduled post not found or does not belong to you"),
           s)) ∧
      (jobId ≠ "" → (∃ j ∈ s.inMemoryJobs, j.id = jobId ∧ j.userId = uid) →
        (cancelScheduledPostById jobId uid bull s).1 = (200, none))) ∧
    (s.isRedisAvailable = true → jobId.startsWith "memory-job-" = false →
      ((cancelScheduledPost jobId s).1 =
          Except.error "Scheduled post not found" ↔
        ¬ ∃ j ∈ s.redisAdded, j.jobId = jobId) ∧
      ((∃ j ∈ s.redisAdded, j.jobId = jobId) →
        cancelScheduledPost jobId s =
          (Except.ok { jobId := jobId, status := "cancelled",
                       message := "Scheduled post cancelled successfully" },
           { s with redisAdded :=
              s.redisAdded.filter (fun j => j.jobId ≠ jobId) })) ∧
      (jobId ≠ "" → ¬ (∃ b ∈ bull, b.id = jobId ∧ b.dataUserId = uid) →
        cancelScheduledPostById jobId uid bull s =
          ((404, some "Scheduled post not found or does not belong to you"),
           s)) ∧
      (jobId ≠ "" → (∃ b ∈ bull, b.id = jobId ∧ b.dataUserId = uid) →
        (∃ j ∈ s.redisAdded, j.jobId = jobId) →
        (cancelScheduledPostById jobId uid bull s).1 = (200, none))) := by
  constructor
  · intro hflag
    have hcond : (s.isRedisAvailable && !(jobId.startsWith "memory-job-")) =
        false := by
      simp [hflag]
    have hiff : s.inMemoryJobs.any (fun j => j.id = jobId) = true ↔
        ∃ j ∈ s.inMemoryJobs, j.id = jobId := by
      simp [List.any_eq_true]
    have hviews : ∀ v ∈ getScheduledPosts uid bull s,
        ∃ j ∈ s.inMemoryJobs, j.userId = uid ∧ v = memView j := by
      intro v hv
      simp only [getScheduledPosts, hflag, Bool.false_eq_true, if_false] at hv
      obtain ⟨j, hj, rfl⟩ := List.mem_map.mp hv
      exact ⟨j, List.mem_of_mem_filter hj,
        by simpa using List.of_mem_filter hj, rfl⟩
    have hfindnone : (¬ ∃ j ∈ s.inMemoryJobs, j.id = jobId ∧ j.userId = uid) →
        (getScheduledPosts uid bull s).find?
          (fun job => job.jobId = jobId) = none := by
      intro hno
      rw [List.find?_eq_none]
      intro v hv
      obtain ⟨j, hjmem, hjuid, rfl⟩ := hviews v hv
      simp only [memView, decide_eq_true_eq]
      intro heq
      exact hno ⟨j, hjmem, heq, hjuid⟩
    by_cases hany : s.inMemoryJobs.any (fun j => j.id = jobId) = true
    · have hc : cancelScheduledPost jobId s =
          (Except.ok { jobId := jobId, status := "cancelled",
                       message := "Scheduled post cancelled successfully (in-memory)" },
           { s with inMemoryJobs :=
              s.inMemoryJobs.filter (fun j => j.id ≠ jobId) }) := by
        simp only [cancelScheduledPost, hcond, Bool.false_eq_true, if_false,
          hany, if_true]
      refine ⟨by simp [hc, hiff.mp hany], fun _ => hc, fun hne hno => ?_,
        fun hne hyes => ?_⟩
      · simp only [cancelScheduledPostById, if_neg hne, hfindnone hno]
      · obtain ⟨j, hjmem, hjid, hjuid⟩ := hyes
        cases hfind : (getScheduledPosts uid bull s).find?
            (fun job => job.jobId = jobId) with
        | none =>
          exfalso
          have hvm : memView j ∈ getScheduledPosts uid bull s := by
            simp only [getScheduledPosts, hflag, Bool.false_eq_true, if_false]
            exact List.mem_map_of_mem memView
              (List.mem_filter.mpr ⟨hjmem, by simpa using hjuid⟩)
          have := List.find?_eq_none.mp hfind (memView j) hvm
          simp [memView, hjid] at this
        | some v =>
          simp only [cancelScheduledPostById, if_neg hne, hfind, hc]
    · have hc : cancelScheduledPost jobId s =
          (Except.error "Scheduled post not found", s) := by
        simp only [cancelScheduledPost, hcond, Bool.false_eq_true, if_false,
          hany, if_neg]
      have hnoP : ¬ ∃ j ∈ s.inMemoryJobs, j.id = jobId := fun hP =>
        hany (hiff.mpr hP)
      refine ⟨by simp [hc, hnoP], fun hP => absurd hP hnoP,
        fun hne hno => ?_, fun hne hyes => ?_⟩
      · simp only [cancelScheduledPostById, if_neg hne, hfindnone hno]
      · obtain ⟨j, hjmem, hjid, hjuid⟩ := hyes
        exact absurd ⟨j, hjmem, hjid⟩ hnoP
  · intro hflagT hpre
    have hcondT : (s.isRedisAvailable && !(jobId.startsWith "memory-job-")) =
        true := by
      rw [hflagT, hpre]
      rfl
    have hviewsR : ∀ v ∈ getScheduledPosts uid bull s,
        ∃ b ∈ bull, b.dataUserId = uid ∧ v = bullView b := by
      intro v hv
      simp only [getScheduledPosts, hflagT, if_true] at hv
      obtain ⟨b, hb, rfl⟩ := List.mem_map.mp hv
      exact ⟨b, List.mem_of_mem_filter hb,
        by simpa using List.of_mem_filter hb, rfl⟩
    have hfindnoneR : (¬ ∃ b ∈ bull, b.id = jobId ∧ b.dataUserId = uid) →
        (getScheduledPosts uid bull s).find?
          (fun job => job.jobId = jobId) = none := by
      intro hno
      rw [List.find?_eq_none]
      intro v hv
      obtain ⟨b, hbmem, hbuid, rfl⟩ := hviewsR v hv
      simp only [bullView, decide_eq_true_eq]
      intro heq
      exact hno ⟨b, hbmem, heq, hbuid⟩
    cases hfindR : s.redisAdded.find? (fun j => j.jobId = jobId) with
    | none =>
      have hnoP : ¬ ∃ j ∈ s.redisAdded, j.jobId = jobId := by
        rintro ⟨j, hj, hjid⟩
        have := List.find?_eq_none.mp hfindR j hj
        simp [hjid] at this
      have hc : cancelScheduledPost jobId s =
          (Except.error "Scheduled post not found", s) := by
        simp only [cancelScheduledPost, hcondT, if_true, hfindR]
      refine ⟨by simp [hc, hnoP], fun hP => absurd hP hnoP,
        fun hne hno => ?_, fun hne hyes hP => absurd hP hnoP⟩
      simp only [cancelScheduledPostById, if_neg hne, hfindnoneR hno]
    | some v =>
      have hP : ∃ j ∈ s.redisAdded, j.jobId = jobId :=
        ⟨v, List.mem_of_find?_eq_some hfindR,
         by simpa using List.find?_some hfindR⟩
      have hc : cancelScheduledPost jobId s =
          (Except.ok { jobId := jobId, status := "cancelled",
                       message := "Scheduled post cancelled successfully" },
           { s with redisAdded :=
              s.redisAdded.filter (fun j => j.jobId ≠ jobId) }) := by
        simp only [cancelScheduledPost, hcondT, if_true, hfindR]
      refine ⟨by simp [hc, hP], fun _ => hc, fun hne hno => ?_,
        fun hne hyes hP' => ?_⟩
      · simp only [cancelScheduledPostById, if_neg hne, hfindnoneR hno]
      · obtain ⟨b, hbmem, hbid, hbuid⟩ := hyes
        cases hfindV : (getScheduledPosts uid bull s).find?
            (fun job => job.jobId = jobId) with
        | none =>
          exfalso
          have hvm : bullView b ∈ getScheduledPosts uid bull s := by
            simp only [getScheduledPosts, hflagT, if_true]
            exact List.mem_map_of_mem bullView
              (List.mem_filter.mpr ⟨hbmem, by simpa using hbuid⟩)
          have := List.find?_eq_none.mp hfindV (bullView b) hvm
          simp [bullView, hbid] at this
        | some w =>
          simp only [cancelScheduledPostById, if_neg hne, hfindV, hc]

theorem c5_witness :
    (cancelScheduledPost "memory-job-1" exState1).1 =
      Except.ok { jobId := "memory-job-1", status := "cancelled",
                  message := "Scheduled post cancelled successfully (in-memory)" } ∧
    (cancelScheduledPostById "memory-job-1" 1 [] exState1).1 = (200, none) ∧
    (cancelScheduledPost "scheduled-post-1-0" exStateR).1 =
      Except.ok { jobId := "scheduled-post-1-0", status := "cancelled",
                  message := "Scheduled post cancelled successfully" } ∧
    (cancelScheduledPostById "scheduled-post-1-0" 1 [exBullJob] exStateR).1 =
      (200, none) :=
  ⟨by rw [((c5_cancel_notfound_iff "memory-job-1" 1 [] exState1).1 rfl).2.1
        ⟨exJob, by decide, rfl⟩],
   ((c5_cancel_notfound_iff "memory-job-1" 1 [] exState1).1 rfl).2.2.2
     (by decide) ⟨exJob, by decide, rfl, rfl⟩,
   by rw [((c5_cancel_notfound_iff "scheduled-post-1-0" 1 [exBullJob]
          exStateR).2 rfl scheduledPostId_not_memory).2.1
        ⟨exRedisJob, by decide, rfl⟩],
   ((c5_cancel_notfound_iff "scheduled-post-1-0" 1 [exBullJob] exStateR).2
      rfl scheduledPostId_not_memory).2.2.2 (by decide)
     ⟨exBullJob, by decide, rfl, rfl⟩ ⟨exRedisJob, by decide, rfl⟩⟩

/-- C6: a successful cancel on the fallback backend removes exactly the
cancelled job: every other map entry survives unchanged (same record, hence
same key, status, postData, ownerId, scheduledTime, createdAt and error), and
the counter, armed timers, durable log and post log are untouched. -/
theorem c6_cancel_frame (jobId : String) (s s' : QueueState) (r : CancelResult)
    (hflag : s.isRedisAvailable = false)
    (h : cancelScheduledPost jobId s = (Except.ok r, s')) :
    s'.inMemoryJobs = s.inMemoryJobs.filter (fun j => j.id ≠ jobId) ∧
    (∀ j ∈ s.inMemoryJobs, j.id ≠ jobId → j ∈ s'.inMemoryJobs) ∧
    (∀ j ∈ s'.inMemoryJobs, j ∈ s.inMemoryJobs ∧ j.id ≠ jobId) ∧
    s'.jobIdCounter = s.jobIdCounter ∧ s'.timers = s.timers ∧
    s'.redisAdded = s.redisAdded ∧ s'.postLog = s.postLog := by
  have hcond : (s.isRedisAvailable && !(jobId.startsWith "memory-job-")) =
      false := by
    simp [hflag]
  simp only [cancelScheduledPost, hcond, Bool.false_eq_true, if_false] at h
  by_cases hany : s.inMemoryJobs.any (fun j => j.id = jobId) = true
  · rw [if_pos hany] at h
    simp only [Prod.mk.injEq] at h
    obtain ⟨-, rfl⟩ := h
    refine ⟨rfl, ?_, ?_, rfl, rfl, rfl, rfl⟩
    · intro j hj hne
      exact List.mem_filter.mpr ⟨hj, by simpa using hne⟩
    · intro j hj
      exact ⟨List.mem_of_mem_filter hj, by simpa using List.of_mem_filter hj⟩
  · rw [if_neg hany] at h
    simp at h

theorem c6_witness :
    exState1c.inMemoryJobs =
      exState1.inMemoryJobs.filter (fun j => j.id ≠ "memory-job-1") ∧
    exState1c.timers = exState1.timers :=
  ⟨(c6_cancel_frame "memory-job-1" exState1 exState1c
      { jobId := "memory-job-1", status := "cancelled",
        message := "Scheduled post cancelled successfully (in-memory)" }
      rfl rfl).1,
   (c6_cancel_frame "memory-job-1" exState1 exState1c
      { jobId := "memory-job-1", status := "cancelled",
        message := "Scheduled post cancelled successfully (in-memory)" }
      rfl rfl).2.2.2.2.1⟩

/-- C7: every view returned by `getScheduledPosts` for an owner stems from a
job of that very owner, on the durable branch and on the fallback branch
alike. -/
theorem c7_list_only_owner (uid : Nat) (bull : List BullJob) (s : QueueState)
    (v : JobView) (hv : v ∈ getScheduledPosts uid bull s) :
    (s.isRedisAvailable = true ∧
      ∃ j, j ∈ bull ∧ j.dataUserId = uid ∧ v = bullView j) ∨
    (s.isRedisAvailable = false ∧
      ∃ j, j ∈ s.inMemoryJobs ∧ j.userId = uid ∧ v = memView j) := by
  cases hflag : s.isRedisAvailable with
  | false =>
    right
    refine ⟨rfl, ?_⟩
    simp only [getScheduledPosts, hflag, Bool.false_eq_true, if_false] at hv
    obtain ⟨j, hj, rfl⟩ := List.mem_map.mp hv
    exact ⟨j, List.mem_of_mem_filter hj,
      by simpa using List.of_mem_filter hj, rfl⟩
  | true =>
    left
    refine ⟨rfl, ?_⟩
    simp only [getScheduledPosts, hflag, if_true] at hv
    obtain ⟨j, hj, rfl⟩ := List.mem_map.mp hv
    exact ⟨j, List.mem_of_mem_filter hj,
      by simpa using List.of_mem_filter hj, rfl⟩

theorem c7_witness :
    memView exJob ∈ getScheduledPosts 1 [] exState1 ∧
    ((exState1.isRedisAvailable = true ∧
        ∃ j, j ∈ ([] : List BullJob) ∧ j.dataUserId = 1 ∧
          memView exJob = bullView j) ∨
      (exState1.isRedisAvailable = false ∧
        ∃ j, j ∈ exState1.inMemoryJobs ∧ j.userId = 1 ∧
          memView exJob = memView j)) :=
  ⟨by decide, c7_list_only_owner 1 [] exState1 (memView exJob) (by decide)⟩

/-- C8: fallback job identifiers come from the strictly increasing local
counter: a successful fallback schedule bumps the counter by exactly one, and
two fallback schedule calls — the second made from any state reachable from
the first's post-state — return distinct jobIds. -/
theorem c8_jobIds_distinct (pd₁ pd₂ : PostData) (uid₁ uid₂ : Nat)
    (t₁ t₂ now₁ now₂ : Int) (r₁ r₂ : ScheduleResult) (s s₁ s' s₂ : QueueState)
    (hflag : s.isRedisAvailable = false) (hflag' : s'.isRedisAvailable = false)
    (h₁ : schedulePost pd₁ uid₁ t₁ now₁ s = (Except.ok r₁, s₁))
    (hsteps : Relation.ReflTransGen Step s₁ s')
    (h₂ : schedulePost pd₂ uid₂ t₂ now₂ s' = (Except.ok r₂, s₂)) :
    s₁.jobIdCounter = s.jobIdCounter + 1 ∧ r₁.jobId ≠ r₂.jobId := by
  obtain ⟨hid₁, hcnt₁⟩ := schedulePost_ok_fallback hflag h₁
  obtain ⟨hid₂, hcnt₂⟩ := schedulePost_ok_fallback hflag' h₂
  have hle := steps_counter_le hsteps
  refine ⟨hcnt₁, ?_⟩
  rw [hid₁, hid₂]
  intro heq
  have := memoryJobId_inj heq
  omega

theorem c8_witness :
    exState1.jobIdCounter = initState.jobIdCounter + 1 ∧
    ("memory-job-1" : String) ≠ "memory-job-2" :=
  c8_jobIds_distinct examplePost examplePost 1 1 1000 2000 0 0
    { jobId := "memory-job-1", scheduledTime := 1000, status := "scheduled",
      message := "Post scheduled successfully (in-memory)" }
    { jobId := "memory-job-2", scheduledTime := 2000, status := "scheduled",
      message := "Post scheduled successfully (in-memory)" }
    initState exState1 exState1 exState2 rfl rfl rfl
    Relation.ReflTransGen.refl rfl

/-- C9 fails as stated: the stats object carries no `backendType` field — the
active backend is reported under the key `type` (jobQueue.js lines 294 and
309). Falsified here on the fallback backend's initial state. -/
theorem c9_no_backendType_field :
    statField (getQueueStats rc0 initState) "backendType" = none ∧
    "backendType" ∉ (getQueueStats rc0 initState).map Prod.fst := by
  decide

/-- C9 amended: stats always returns an object with exactly the keys waiting,
active, completed, failed, delayed, total and `type` (not `backendType`),
where `type` reports which backend is active: 'in-memory' when the durable
probe failed, 'redis' when it succeeded. -/
theorem c9_stats_fields (rc : RedisCounts) (s : QueueState) :
    (getQueueStats rc s).map Prod.fst =
      ["waiting", "active", "completed", "failed", "delayed", "total",
       "type"] ∧
    (s.isRedisAvailable = false →
      statField (getQueueStats rc s) "type" =
        some (JsonVal.str "in-memory")) ∧
    (s.isRedisAvailable = true →
      statField (getQueueStats rc s) "type" = some (JsonVal.str "redis")) := by
  cases hflag : s.isRedisAvailable with
  | false =>
    refine ⟨?_, fun _ => ?_, fun hc => by simp [hflag] at hc⟩ <;>
      simp only [getQueueStats, hflag, Bool.false_eq_true, if_false] <;> rfl
  | true =>
    refine ⟨?_, fun hc => by simp [hflag] at hc, fun _ => ?_⟩ <;>
      simp only [getQueueStats, hflag, if_true] <;> rfl

theorem c9_witness :
    statField (getQueueStats rc0 initState) "type" =
      some (JsonVal.str "in-memory") :=
  (c9_stats_fields rc0 initState).2.1 rfl

/-- C10: in fallback mode every in-memory map entry carries status
'scheduled' or 'failed' — no entry persists as 'processing', 'completed' or
'cancelled' — so in every reachable state the stats satisfy
waiting = active = completed = 0 and total = failed + delayed. -/
theorem c10_fallback_status_invariant (rc : RedisCounts) (s : QueueState)
    (h : Reachable s) :
    (∀ j ∈ s.inMemoryJobs, j.status = "scheduled" ∨ j.status = "failed") ∧
    statField (getQueueStats rc s) "waiting" = some (JsonVal.num 0) ∧
    statField (getQueueStats rc s) "active" = some (JsonVal.num 0) ∧
    statField (getQueueStats rc s) "completed" = some (JsonVal.num 0) ∧
    ∃ f d : Nat,
      statField (getQueueStats rc s) "failed" = some (JsonVal.num f) ∧
      statField (getQueueStats rc s) "delayed" = some (JsonVal.num d) ∧
      statField (getQueueStats rc s) "total" = some (JsonVal.num (f + d)) := by
  obtain ⟨hflag, hinv⟩ := reachable_effects h
  have hlen := length_filter_add_length_filter s.inMemoryJobs
    (fun j => decide (j.status = "scheduled"))
    (fun j => decide (j.status = "failed"))
    (fun x hx => by rcases hinv x hx with h' | h' <;> simp [h'])
    (fun x hx hpq => by
      obtain ⟨hp, hq'⟩ := hpq
      simp only [decide_eq_true_eq] at hp hq'
      rw [hp] at hq'
      exact absurd hq' (by decide))
  have htotal : s.inMemoryJobs.length =
      (s.inMemoryJobs.filter (fun j => decide (j.status = "failed"))).length +
      (s.inMemoryJobs.filter
        (fun j => decide (j.status = "scheduled"))).length := by
    omega
  refine ⟨hinv, ?_, ?_, ?_,
    (s.inMemoryJobs.filter (fun j => decide (j.status = "failed"))).length,
    (s.inMemoryJobs.filter (fun j => decide (j.status = "scheduled"))).length,
    ?_, ?_, ?_⟩
  · simp only [getQueueStats, hflag, Bool.false_eq_true, if_false]
    rfl
  · simp only [getQueueStats, hflag, Bool.false_eq_true, if_false]
    rfl
  · simp only [getQueueStats, hflag, Bool.false_eq_true, if_false]
    rfl
  · simp only [getQueueStats, hflag, Bool.false_eq_true, if_false]
    rfl
  · simp only [getQueueStats, hflag, Bool.false_eq_true, if_false]
    rfl
  · simp only [getQueueStats, hflag, Bool.false_eq_true, if_false]
    rw [htotal]
    rfl

theorem c10_witness :
    statField (getQueueStats rc0 initState) "waiting" =
      some (JsonVal.num 0) ∧
    statField (getQueueStats rc0 initState) "active" = some (JsonVal.num 0) ∧
    statField (getQueueStats rc0 initState) "completed" =
      some (JsonVal.num 0) :=
  ⟨(c10_fallback_status_invariant rc0 initState Reachable.init).2.1,
   (c10_fallback_status_invariant rc0 initState Reachable.init).2.2.1,
   (c10_fallback_status_invariant rc0 initState Reachable.init).2.2.2.1⟩

end SocialMediaBackend
